import Mathlib

/-!
Shallow embedding of the curve abstraction and adaptive rectification engine of
`src/Typeset/Graphics/curve.cpp` (TeXmacs).  Doubles are modelled as real
numbers (exact real arithmetic), the 2-dimensional `point` type as
`EuclideanSpace ℝ (Fin 2)` with its Euclidean norm, and the fallible /
potentially non-terminating parts (the adaptive bisection of spline spans, the
`fatal_error` of `transformed_curve_rep::rectify_cumul`) as `Option` /
`Except`-valued functions with an explicit fuel parameter.
-/

noncomputable section

/-- The 2D `point` value type (external collaborator of curve.cpp): addition,
subtraction, scalar multiplication and the Euclidean `norm`. -/
abbrev Point := EuclideanSpace ℝ (Fin 2)

/-- Helper to build a concrete point from its two coordinates. -/
def pt (x y : ℝ) : Point := (WithLp.equiv 2 (Fin 2 → ℝ)).symm ![x, y]

/-- Modelled from the spec: `fnull` from `math_util.hpp` (not under `src/`),
the near-zero test used to "snap to exactly 0 if below 1e-6" in
`spline_rep::approx` (spec §4.6). -/
def fnull (x eps : ℝ) : Prop := |x| < eps

instance (x eps : ℝ) : Decidable (fnull x eps) := by
  unfold fnull; infer_instance

/-- Modelled from the spec: the sentinel "infinite curvature radius"
`tm_infinity` from `math_util.hpp` (not under `src/`); the claims only use
that it is positive. -/
def tm_infinity : ℝ := 1000000

/-- `square` from `math_util.hpp`. -/
def square (x : ℝ) : ℝ := x * x

/-- C `(int)` cast of a double: truncation toward zero. -/
def dtrunc (x : ℝ) : ℤ := if x < 0 then ⌈x⌉ else ⌊x⌋

/-- Access of a C++ `array<point>` at an integer index (out-of-range access
is undefined behavior in the source; the model returns the zero point). -/
def getPt (l : List Point) (i : ℤ) : Point :=
  if i < 0 then 0 else l.getD i.toNat 0

/-! ## Splines: the per-span data of `spline_rep`

`spline_rep` stores, for every internal knot span `i`, the precomputed local
polynomial `p[i] = a[i]*p1[i] + a[i-1]*p2[i-1] + a[i-2]*p3[i-2]`, a quadratic
polynomial with point coefficients.  The claims are about the evaluation and
rectification machinery, which works on this stored state (`n`, the knot
vector `U`, the span polynomials `p`); the state is kept abstract here, so all
theorems hold in particular for the states built by the `spline_rep`
constructor. -/

/-- A quadratic polynomial with point coefficients:
`q.c2 * u^2 + q.c1 * u + q.c0`. -/
structure QuadP where
  c2 : Point
  c1 : Point
  c0 : Point

/-- Evaluation of a quadratic point polynomial at `u`, requesting the
derivative of order `o` (the generic polynomial evaluation utility
`p[i](u,o)`; orders above the degree give `0`). -/
def QuadP.evalD (q : QuadP) (u : ℝ) : ℤ → Point
  | 0 => (u * u) • q.c2 + u • q.c1 + q.c0
  | 1 => (2 * u) • q.c2 + q.c1
  | 2 => (2 : ℝ) • q.c2
  | _ => 0

/-- The stored state of a `spline_rep`: `n`, the knot vector `U` and the
per-span quadratic polynomials `p` (`U` and `p` are total functions on ℤ;
the C++ arrays have `N(U) = n+6` entries and spans `p[2] .. p[n]`). -/
structure SplineRep where
  n : ℕ
  U : ℤ → ℝ
  p : ℤ → QuadP

/-- `spline_rep::spline (i, u, o)`: evaluate span `i`'s polynomial at `u`;
a requested derivative order outside `0..2` is treated as order `0`
(`if (o<0 || o>2) o=0`). -/
def splineEval (s : SplineRep) (i : ℤ) (u : ℝ) (o : ℤ) : Point :=
  (s.p i).evalD u (if o < 0 ∨ 2 < o then 0 else o)

/-- `spline_rep::convert (u) = U[2] + u*(U[n+1]-U[2])`. -/
def splineConvert (s : SplineRep) (u : ℝ) : ℝ :=
  s.U 2 + u * (s.U (s.n + 1) - s.U 2)

/-- The linear scan of `spline_rep::interval_no`, starting at index `i` with
`k` indices left to inspect. -/
def scanFrom (s : SplineRep) (u : ℝ) : ℕ → ℕ → ℤ
  | 0, _ => -1
  | k + 1, i => if s.U i ≤ u ∧ u < s.U (i + 1) then (i : ℤ) else scanFrom s u k (i + 1)

/-- `spline_rep::interval_no (u)`: scan `i = 0 .. N(U)-1` (with `N(U) = n+6`)
for the interval with `U[i] <= u < U[i+1]`; `-1` when none is found. -/
def interval_no (s : SplineRep) (u : ℝ) : ℤ :=
  scanFrom s u (s.n + 6) 0

/-- `spline_rep::evaluate (t, o)`: convert `t` into the knot range, locate the
knot interval, and clamp out-of-range interval indices to the boundary
spans. -/
def splineEvalOrd (s : SplineRep) (t : ℝ) (o : ℤ) : Point :=
  let u := splineConvert s t
  let no := interval_no s u
  if no < 2 then splineEval s 2 (s.U 2) o
  else if (s.n : ℤ) < no then splineEval s s.n (s.U (s.n + 1)) o
  else splineEval s no u o

/-- `spline_rep::evaluate (t)` (order 0). -/
def splineEvaluate (s : SplineRep) (t : ℝ) : Point :=
  splineEvalOrd s t 0

/-- `spline_rep::curvature (i, t1, t2)`: the per-span curvature radius bound.
`a = coeffs(p[i],2)`, `b = coeffs(p[i],1)`; degenerate spans report
`tm_infinity`. -/
def splineCurvature (s : SplineRep) (i : ℤ) (t1 t2 : ℝ) : ℝ :=
  let a := (s.p i).c2
  let b := (s.p i).c1
  if ‖a‖ = 0 then tm_infinity
  else
    let t0 := -(@inner ℝ _ _ a b) / (2 * @inner ℝ _ _ a a)
    let t := if t1 > t0 then t1 else if t2 < t0 then t2 else t0
    let pp := splineEval s i t 1
    let ps := splineEval s i t 2
    if ‖ps‖ = 0 then tm_infinity else square ‖pp‖ / ‖ps‖

/-- `spline_rep::approx (i, u1, u2, err)`: chord length `l` between the span
evaluations, snapped to exactly `0` when nonzero but below `1e-6`
(`if (l!=0 && fnull (l,1.0e-6)) l=0`), accepted iff
`l <= 2*sqrt(2*R*err)` where `R = curvature(i,u1,u2)`. -/
def approx (s : SplineRep) (i : ℤ) (u1 u2 err : ℝ) : Bool :=
  let l0 := ‖splineEval s i u1 0 - splineEval s i u2 0‖
  let l := if l0 ≠ 0 ∧ fnull l0 (1e-6) then 0 else l0
  let R := splineCurvature s i u1 u2
  decide (l ≤ 2 * Real.sqrt (2 * R * err))

/-- `spline_rep::rectify_cumul (cum, i, u1, u2, err)`: adaptive bisection of
one knot span, with an explicit fuel parameter (`none` = the recursion did
not reach its base cases within `fuel` levels). -/
def splineSpanF (s : SplineRep) (i : ℤ) : ℕ → ℝ → ℝ → ℝ → List Point → Option (List Point)
  | 0, _, _, _, _ => none
  | fuel + 1, u1, u2, err, cum =>
    if approx s i u1 u2 err then some (cum ++ [splineEval s i u2 0])
    else
      match splineSpanF s i fuel u1 ((u1 + u2) / 2) err cum with
      | some cum2 => splineSpanF s i fuel ((u1 + u2) / 2) u2 err cum2
      | none => none

/-- The loop of `spline_rep::rectify_cumul (cum, err)` over the span indices
`i = 2 .. n`. -/
def spanFoldF (s : SplineRep) (fuel : ℕ) (err : ℝ) : List ℕ → List Point → Option (List Point)
  | [], cum => some cum
  | i :: is, cum =>
    match splineSpanF s (i : ℤ) fuel (s.U i) (s.U (i + 1)) err cum with
    | some cum2 => spanFoldF s fuel err is cum2
    | none => none

/-- `spline_rep::rectify_cumul (cum, err)`:
`for (i=2; i<=n; i++) rectify_cumul (cum, i, U[i], U[i+1], err)`. -/
def splineRectCumulF (s : SplineRep) (fuel : ℕ) (cum : List Point) (err : ℝ) :
    Option (List Point) :=
  spanFoldF s fuel err (List.range' 2 (s.n - 1)) cum

/-- `spline_rep::S (p1, p2, p3, i, u)`: basis-piece selection.  The source
function has a trailing branch with no `return` statement (`// FIXME: and
otherwise ?`); that branch is modelled as `none`. -/
def splineS (n : ℕ) (U : ℤ → ℝ) (p1 p2 p3 : ℤ → ℝ → ℝ) (i : ℤ) (u : ℝ) : Option ℝ :=
  if i < 0 ∨ (n : ℤ) < i then some 0
  else if u < U i ∨ U (i + 3) ≤ u then some 0
  else if u < U (i + 1) then some (p1 i u)
  else if u < U (i + 2) then some (p2 i u)
  else if u < U (i + 3) then some (p3 i u)
  else none

/-! ## Arcs, frames, and the curve variants -/

/-- `arc_rep::evaluate (t)` for an arc stored as center, radii `r1 r2`,
rotation `alpha`, start angle fraction `e1` and extent `e2` (the constructor
stores `e2 = e2b - e1b`):
`center + r1*cos(2*pi*(e1+t))*(cos alpha, sin alpha)
        + r2*sin(2*pi*(e1+t))*(-sin alpha, cos alpha)`. -/
def arcEvaluate (center : Point) (r1 r2 alpha e1 : ℝ) (t : ℝ) : Point :=
  center + (r1 * Real.cos (2 * Real.pi * (e1 + t))) • pt (Real.cos alpha) (Real.sin alpha)
         + (r2 * Real.sin (2 * Real.pi * (e1 + t))) • pt (-Real.sin alpha) (Real.cos alpha)

/-- The points appended by `arc_rep::rectify_cumul (cum, err)`.  In exact real
arithmetic the loop `for (t=step; t<=e2; t+=step) cum << evaluate (t);`
appends `evaluate (k*step)` for `k = 1 .. K` with `K = floor (e2/step)`
(faithful for `step > 0`, i.e. `err > 0` and `max r1 r2 > 0`), and the
trailing `if (t-step != e2) cum << evaluate (e2);` tests `K*step != e2`. -/
def arcRectifyPoints (center : Point) (r1 r2 alpha e1 e2 err : ℝ) : List Point :=
  let step := Real.sqrt (2 * err / max r1 r2) / Real.pi
  let K := ⌊e2 / step⌋₊
  (List.range K).map (fun k : ℕ => arcEvaluate center r1 r2 alpha e1 (((k : ℝ) + 1) * step)) ++
    (if (K : ℝ) * step = e2 then [] else [arcEvaluate center r1 r2 alpha e1 e2])

/-- The affine `frame` type (external collaborator), restricted to the
operations `transformed_curve_rep` uses: application `f(p)`, the `linear`
flag, and `direct_bound (p, err)`. -/
structure Frame where
  linear : Bool
  app : Point → Point
  direct_bound : Point → ℝ → ℝ

/-- The closed type of curve variants of `curve.cpp`. -/
inductive Curve where
  | segment (p1 p2 : Point)
  | polySegment (a : List Point)
  | spline (s : SplineRep)
  | arc (center : Point) (r1 r2 alpha e1 e2 : ℝ)
  | compound (c1 c2 : Curve)
  | inverted (c : Curve)
  | transformed (f : Frame) (c : Curve)

/-- `nr_components ()`: `poly_segment_rep` returns `n = N(a)-1`, compounds
add, inversions and transforms pass through.  The leaf default `1`
(`segment`, `spline`, `arc`) is the `curve_rep` base-class default, modelled
from the spec (`curve.hpp` is not under `src/`; spec §3: "default 1"). -/
def Curve.nrComponents : Curve → ℤ
  | .segment _ _ => 1
  | .polySegment a => (a.length : ℤ) - 1
  | .spline _ => 1
  | .arc _ _ _ _ _ _ => 1
  | .compound c1 c2 => c1.nrComponents + c2.nrComponents
  | .inverted c => c.nrComponents
  | .transformed _ c => c.nrComponents

/-- `poly_segment_rep::evaluate (t)`:
`int i = min ((int) (n*t), n-1); return (1.0-t)*a[i] + t*a[i+1];`. -/
def polyEval (a : List Point) (t : ℝ) : Point :=
  let n : ℤ := (a.length : ℤ) - 1
  let i : ℤ := min (dtrunc ((n : ℝ) * t)) (n - 1)
  (1 - t) • getPt a i + t • getPt a (i + 1)

/-- `evaluate (t)` of every curve variant.  `segment`: `(1-t)*p1 + t*p2`;
`compound`: `double n = n1+n2; if (t <= n1/n) return c1 (t*n/n1);
else return c2 (t*n/n2 - n1);`; `inverted`: `c (1.0-t)`;
`transformed`: `f (c (t))`. -/
def Curve.evaluate : Curve → ℝ → Point
  | .segment p1 p2, t => (1 - t) • p1 + t • p2
  | .polySegment a, t => polyEval a t
  | .spline s, t => splineEvaluate s t
  | .arc center r1 r2 alpha e1 _, t => arcEvaluate center r1 r2 alpha e1 t
  | .compound c1 c2, t =>
    let n1 : ℝ := c1.nrComponents
    let n2 : ℝ := c2.nrComponents
    let n : ℝ := n1 + n2
    if t ≤ n1 / n then c1.evaluate (t * n / n1) else c2.evaluate (t * n / n2 - n1)
  | .inverted c, t => c.evaluate (1 - t)
  | .transformed f c, t => f.app (c.evaluate t)

/-- `rectify_cumul (a, err)` of every curve variant, with a fuel parameter
for the spline span bisection (`none` = fuel ran out) and an `Except`
modelling the `fatal_error` of `transformed_curve_rep::rectify_cumul` on
non-linear frames. -/
def Curve.rectifyCumulF : Curve → ℕ → List Point → ℝ → Option (Except Unit (List Point))
  | .segment _ p2, _, a, _ => some (.ok (a ++ [p2]))
  | .polySegment ps, _, a, _ => some (.ok (a ++ ps.drop 1))
  | .spline s, fuel, a, err => (splineRectCumulF s fuel a err).map .ok
  | .arc center r1 r2 alpha e1 e2, _, a, err =>
    some (.ok (a ++ arcRectifyPoints center r1 r2 alpha e1 e2 err))
  | .compound c1 c2, fuel, a, err =>
    match c1.rectifyCumulF fuel a err with
    | some (.ok a2) => c2.rectifyCumulF fuel a2 err
    | r => r
  | .inverted c, fuel, a, err =>
    (c.rectifyCumulF fuel [c.evaluate 0] err).map (Except.map (fun b => a ++ b.reverse))
  | .transformed f c, fuel, a, err =>
    if f.linear then
      (c.rectifyCumulF fuel [c.evaluate 0] (f.direct_bound (c.evaluate 0) err)).map
        (Except.map (fun b => a ++ b.map f.app))
    else some (.error ())

/-- `curve_rep::rectify (err)`: seed the accumulator with `evaluate (0.0)`,
then `rectify_cumul`. -/
def Curve.rectifyF (c : Curve) (fuel : ℕ) (err : ℝ) : Option (Except Unit (List Point)) :=
  c.rectifyCumulF fuel [c.evaluate 0] err

/-- Well-formedness of a curve value, as the spec's interface contracts
require: arcs have a nondegenerate larger radius (so the rectification step
size is positive), and frames of transformed curves are linear with a
tolerance bound that keeps positive tolerances positive. -/
def Curve.WF : Curve → Prop
  | .segment _ _ => True
  | .polySegment _ => True
  | .spline _ => True
  | .arc _ r1 r2 _ _ _ => 0 < max r1 r2
  | .compound c1 c2 => c1.WF ∧ c2.WF
  | .inverted c => c.WF
  | .transformed f c => f.linear = true ∧ (∀ p e, 0 < e → 0 < f.direct_bound p e) ∧ c.WF

/-! ## Coordinate helpers for concrete points -/

@[simp]
theorem pt_apply_zero (x y : ℝ) : pt x y 0 = x := by
  simp [pt]

@[simp]
theorem pt_apply_one (x y : ℝ) : pt x y 1 = y := by
  simp [pt]

@[simp]
theorem point_add_apply (p q : Point) (i : Fin 2) : (p + q) i = p i + q i := rfl

@[simp]
theorem point_smul_apply (c : ℝ) (p : Point) (i : Fin 2) : (c • p) i = c * p i := rfl

theorem point_ext {p q : Point} (h0 : p 0 = q 0) (h1 : p 1 = q 1) : p = q := by
  funext i
  fin_cases i <;> assumption

theorem point_ne_of_apply_ne {p q : Point} (i : Fin 2) (h : p i ≠ q i) : p ≠ q := by
  intro hpq
  exact h (congrFun hpq i)

/-- C3 scratch check: the poly-segment evaluation at `t = 1/2`. -/
theorem polyEval_c3_value :
    polyEval [pt 0 0, pt 1 0, pt 2 2] (1 / 2) = pt (3 / 2) 1 := by
  have h1 : dtrunc ((((3 : ℤ) - 1 : ℤ) : ℝ) * (1 / 2)) = 1 := by
    norm_num [dtrunc]
  refine point_ext ?_ ?_ <;>
    · simp only [polyEval, List.length_cons, List.length_nil, h1]
      norm_num [getPt, dtrunc, show Int.toNat 2 = 2 from rfl, List.getD]

/-- C3: refuted.  `poly_segment_rep::evaluate` selects the sub-interval
`i = min ((int)(n*t), n-1)` but interpolates with the *global* parameter `t`
(`(1.0-t)*a[i] + t*a[i+1]`) instead of the local parameter `n*t - i`; hence
for the 3-point poly-segment `a = [(0,0), (1,0), (2,2)]` (so `n = 2`) the
value at `t = 1/2 = 1/n` is `(3/2, 1)`, not the control point `a[1] = (1,0)`
required by `evaluate(i/n) = a[i]` (and the curve is discontinuous at the
sub-interval boundary). -/
theorem c3_poly_segment_eval_bug :
    (Curve.polySegment [pt 0 0, pt 1 0, pt 2 2]).evaluate (1 / 2) = pt (3 / 2) 1 ∧
      pt (3 / 2) 1 ≠ pt 1 0 := by
  constructor
  · show polyEval [pt 0 0, pt 1 0, pt 2 2] (1 / 2) = pt (3 / 2) 1
    exact polyEval_c3_value
  · refine point_ne_of_apply_ne 0 ?_
    norm_num

/-- C2 helper: the second poly-segment of the counterexample, at `t = 1/2`. -/
theorem polyEval_c2_half :
    polyEval [pt 0 0, pt 1 0, pt 1 1] (1 / 2) = pt 1 (1 / 2) := by
  have h1 : dtrunc ((((3 : ℤ) - 1 : ℤ) : ℝ) * (1 / 2)) = 1 := by
    norm_num [dtrunc]
  refine point_ext ?_ ?_ <;>
    · simp only [polyEval, List.length_cons, List.length_nil, h1]
      norm_num [getPt, dtrunc, show Int.toNat 2 = 2 from rfl, List.getD]

/-- C2 helper: the second poly-segment of the counterexample, at `t = 1`. -/
theorem polyEval_c2_one :
    polyEval [pt 0 0, pt 1 0, pt 1 1] 1 = pt 1 1 := by
  have h1 : dtrunc ((((3 : ℤ) - 1 : ℤ) : ℝ) * 1) = 2 := by
    norm_num [dtrunc]
  refine point_ext ?_ ?_ <;>
    · simp only [polyEval, List.length_cons, List.length_nil, h1]
      norm_num [getPt, dtrunc, show Int.toNat 2 = 2 from rfl, List.getD]

/-- C2: refuted.  `compound_curve_rep::evaluate` computes the second branch
as `c2 (t*n/n2 - n1)` instead of the proportional rescaling
`c2 ((t*n - n1)/n2)` the claim states.  With `n1 = 1` (a 2-point
poly-segment) and `n2 = 2` (a 3-point poly-segment), at `t = 1` the code
evaluates `c2 (1*3/2 - 1) = c2 (1/2) = (1, 1/2)`, while the claim requires
`c2 ((1*3 - 1)/2) = c2 (1) = (1, 1)`; in particular
`(c1 * c2).evaluate(1.0) ≠ c2.evaluate(1.0)`. -/
theorem c2_compound_eval_bug :
    (Curve.compound (Curve.polySegment [pt (-1) 0, pt 0 0])
          (Curve.polySegment [pt 0 0, pt 1 0, pt 1 1])).evaluate 1 = pt 1 (1 / 2) ∧
      (Curve.polySegment [pt 0 0, pt 1 0, pt 1 1]).evaluate 1 = pt 1 1 ∧
      pt 1 (1 / 2) ≠ pt 1 1 := by
  refine ⟨?_, ?_, ?_⟩
  · have harg :
        (1 : ℝ) * (((Curve.polySegment [pt (-1) 0, pt 0 0]).nrComponents : ℝ) +
            ((Curve.polySegment [pt 0 0, pt 1 0, pt 1 1]).nrComponents : ℝ)) /
            ((Curve.polySegment [pt 0 0, pt 1 0, pt 1 1]).nrComponents : ℝ) -
            ((Curve.polySegment [pt (-1) 0, pt 0 0]).nrComponents : ℝ) = 1 / 2 := by
      norm_num [Curve.nrComponents]
    have hcond :
        ¬ ((1 : ℝ) ≤ ((Curve.polySegment [pt (-1) 0, pt 0 0]).nrComponents : ℝ) /
            (((Curve.polySegment [pt (-1) 0, pt 0 0]).nrComponents : ℝ) +
              ((Curve.polySegment [pt 0 0, pt 1 0, pt 1 1]).nrComponents : ℝ))) := by
      norm_num [Curve.nrComponents]
    calc (Curve.compound (Curve.polySegment [pt (-1) 0, pt 0 0])
            (Curve.polySegment [pt 0 0, pt 1 0, pt 1 1])).evaluate 1
        = (Curve.polySegment [pt 0 0, pt 1 0, pt 1 1]).evaluate (1 / 2) := by
          rw [show ∀ c1 c2 : Curve, (Curve.compound c1 c2).evaluate 1 =
              if (1:ℝ) ≤ (c1.nrComponents : ℝ) / ((c1.nrComponents : ℝ) + (c2.nrComponents : ℝ))
              then c1.evaluate (1 * ((c1.nrComponents : ℝ) + (c2.nrComponents : ℝ)) / (c1.nrComponents : ℝ))
              else c2.evaluate (1 * ((c1.nrComponents : ℝ) + (c2.nrComponents : ℝ)) / (c2.nrComponents : ℝ) - (c1.nrComponents : ℝ))
              from fun _ _ => rfl]
          rw [if_neg hcond, harg]
      _ = pt 1 (1 / 2) := polyEval_c2_half
  · exact polyEval_c2_one
  · refine point_ne_of_apply_ne 1 ?_
    norm_num

/-! ## Arc rectification facts -/

theorem arc_step_pos (r1 r2 err : ℝ) (herr : 0 < err) (hr : 0 < max r1 r2) :
    0 < Real.sqrt (2 * err / max r1 r2) / Real.pi := by
  apply div_pos _ Real.pi_pos
  exact Real.sqrt_pos.mpr (div_pos (by linarith) hr)

/-- Unfolding of `arcRectifyPoints` with its local `step` and loop count
spelled out. -/
theorem arcRectifyPoints_eq (center : Point) (r1 r2 alpha e1 e2 err : ℝ) :
    arcRectifyPoints center r1 r2 alpha e1 e2 err =
      (List.range ⌊e2 / (Real.sqrt (2 * err / max r1 r2) / Real.pi)⌋₊).map
          (fun k : ℕ => arcEvaluate center r1 r2 alpha e1
            (((k : ℝ) + 1) * (Real.sqrt (2 * err / max r1 r2) / Real.pi))) ++
        (if (⌊e2 / (Real.sqrt (2 * err / max r1 r2) / Real.pi)⌋₊ : ℝ) *
              (Real.sqrt (2 * err / max r1 r2) / Real.pi) = e2 then []
          else [arcEvaluate center r1 r2 alpha e1 e2]) := rfl

/-- Generic form of the "last appended point" fact for the arc loop. -/
theorem arc_points_getLast_gen (f : ℝ → Point) (e2 step : ℝ)
    (_hstep : 0 < step) (he2 : 0 < e2) :
    ((List.range ⌊e2 / step⌋₊).map (fun k : ℕ => f (((k : ℝ) + 1) * step)) ++
        (if (⌊e2 / step⌋₊ : ℝ) * step = e2 then [] else [f e2])).getLast? =
      some (f e2) := by
  by_cases h : ((⌊e2 / step⌋₊ : ℝ)) * step = e2
  · rw [if_pos h, List.append_nil]
    have hK1 : ⌊e2 / step⌋₊ ≠ 0 := by
      intro h0
      rw [h0] at h
      have : (0 : ℝ) = e2 := by simpa using h
      linarith
    obtain ⟨K', hK'⟩ := Nat.exists_eq_succ_of_ne_zero hK1
    rw [hK'] at h ⊢
    rw [List.range_succ, List.map_append, List.map_cons, List.map_nil,
      List.getLast?_concat]
    have harg : ((K' : ℝ) + 1) * step = e2 := by
      push_cast at h
      linarith
    simp [harg]
  · rw [if_neg h, List.getLast?_append_of_ne_nil _ (by simp)]
    rfl

/-- The last point appended by `arc_rep::rectify_cumul` is the evaluation at
the exact end parameter `e2`: either the final conditional pushes
`evaluate (e2)`, or the loop's last iterate already had `t = e2`. -/
theorem arcRectifyPoints_getLast (center : Point) (r1 r2 alpha e1 e2 err : ℝ)
    (herr : 0 < err) (hr : 0 < max r1 r2) (he2 : 0 < e2) :
    (arcRectifyPoints center r1 r2 alpha e1 e2 err).getLast? =
      some (arcEvaluate center r1 r2 alpha e1 e2) := by
  rw [arcRectifyPoints_eq]
  exact arc_points_getLast_gen (arcEvaluate center r1 r2 alpha e1) e2 _
    (arc_step_pos r1 r2 err herr hr) he2

/-- No point sampled by the arc rectification loop overshoots `e2`. -/
theorem arc_loop_le (e2 step : ℝ) (hstep : 0 < step) (he2 : 0 ≤ e2) (k : ℕ)
    (hk : k < ⌊e2 / step⌋₊) : ((k : ℝ) + 1) * step ≤ e2 := by
  have h1 : (k : ℝ) + 1 ≤ (⌊e2 / step⌋₊ : ℝ) := by
    exact_mod_cast Nat.succ_le_of_lt hk
  have h2 : (⌊e2 / step⌋₊ : ℝ) ≤ e2 / step :=
    Nat.floor_le (div_nonneg he2 hstep.le)
  calc ((k : ℝ) + 1) * step ≤ (⌊e2 / step⌋₊ : ℝ) * step := by
        exact mul_le_mul_of_nonneg_right h1 hstep.le
    _ ≤ (e2 / step) * step := mul_le_mul_of_nonneg_right h2 hstep.le
    _ = e2 := div_mul_cancel₀ e2 hstep.ne'

/-- C8: confirmed.  For an arc with `0 < max r1 r2`, end parameter `e2 > 0`
and tolerance `err > 0`, `arc_rep::rectify_cumul` appends exactly the
evaluations at the successive multiples `step, 2*step, ...` of
`step = sqrt(2*err/max(r1,r2))/pi` that do not exceed `e2`, followed (unless
the loop landed exactly on `e2`) by the evaluation at the exact end
parameter `e2`; no sampled parameter overshoots `e2`, and the final appended
point is always the evaluation at `e2`. -/
theorem c8_arc_rectify (center : Point) (r1 r2 alpha e1 e2 err : ℝ)
    (herr : 0 < err) (hr : 0 < max r1 r2) (he2 : 0 < e2) :
    arcRectifyPoints center r1 r2 alpha e1 e2 err =
        (List.range ⌊e2 / (Real.sqrt (2 * err / max r1 r2) / Real.pi)⌋₊).map
            (fun k : ℕ => arcEvaluate center r1 r2 alpha e1
              (((k : ℝ) + 1) * (Real.sqrt (2 * err / max r1 r2) / Real.pi))) ++
          (if (⌊e2 / (Real.sqrt (2 * err / max r1 r2) / Real.pi)⌋₊ : ℝ) *
                (Real.sqrt (2 * err / max r1 r2) / Real.pi) = e2 then []
            else [arcEvaluate center r1 r2 alpha e1 e2]) ∧
      (∀ k : ℕ, k < ⌊e2 / (Real.sqrt (2 * err / max r1 r2) / Real.pi)⌋₊ →
        ((k : ℝ) + 1) * (Real.sqrt (2 * err / max r1 r2) / Real.pi) ≤ e2) ∧
      (arcRectifyPoints center r1 r2 alpha e1 e2 err).getLast? =
        some (arcEvaluate center r1 r2 alpha e1 e2) := by
  refine ⟨arcRectifyPoints_eq center r1 r2 alpha e1 e2 err, ?_, ?_⟩
  · intro k hk
    exact arc_loop_le e2 _ (arc_step_pos r1 r2 err herr hr) he2.le k hk
  · exact arcRectifyPoints_getLast center r1 r2 alpha e1 e2 err herr hr he2

/-- C8 witness: the theorem applied to the unit circle arc with
`r1 = r2 = 1`, `e2 = 1`, `err = 1`. -/
theorem c8_witness :
    (arcRectifyPoints (pt 0 0) 1 1 0 0 1 1).getLast? =
      some (arcEvaluate (pt 0 0) 1 1 0 0 1) :=
  (c8_arc_rectify (pt 0 0) 1 1 0 0 1 1 (by norm_num) (by norm_num) (by norm_num)).2.2

/-- C1: refuted on arcs.  `curve_rep::rectify` always seeds the output with
`evaluate (0.0)`, but `arc_rep::evaluate (t)` uses the angle `2*pi*(e1+t)`
while `arc_rep::rectify_cumul` runs the internal parameter only up to the
stored extent `e2`; hence the last rectification point is `evaluate (e2)`,
which differs from `evaluate (1)` whenever the arc is not a full turn.  For
the half unit circle (`e1 = 0`, `e2 = 1/2`) with `err = 1/50`, the last
point is `evaluate (1/2) = (-1, 0)` while `evaluate (1) = (1, 0)`. -/
theorem c1_arc_endpoint_bug :
    (Curve.arc (pt 0 0) 1 1 0 0 (1 / 2)).rectifyF 0 (1 / 50) =
        some (Except.ok ([(Curve.arc (pt 0 0) 1 1 0 0 (1 / 2)).evaluate 0] ++
          arcRectifyPoints (pt 0 0) 1 1 0 0 (1 / 2) (1 / 50))) ∧
      (arcRectifyPoints (pt 0 0) 1 1 0 0 (1 / 2) (1 / 50)).getLast? =
        some (arcEvaluate (pt 0 0) 1 1 0 0 (1 / 2)) ∧
      arcEvaluate (pt 0 0) 1 1 0 0 (1 / 2) ≠ (Curve.arc (pt 0 0) 1 1 0 0 (1 / 2)).evaluate 1 := by
  refine ⟨rfl, ?_, ?_⟩
  · exact arcRectifyPoints_getLast (pt 0 0) 1 1 0 0 (1 / 2) (1 / 50)
      (by norm_num) (by norm_num) (by norm_num)
  · refine point_ne_of_apply_ne 0 ?_
    have hhalf : 2 * Real.pi * ((0 : ℝ) + 1 / 2) = Real.pi := by ring
    have hone : 2 * Real.pi * ((0 : ℝ) + 1) = 2 * Real.pi := by ring
    show (arcEvaluate (pt 0 0) 1 1 0 0 (1 / 2)) 0 ≠ (arcEvaluate (pt 0 0) 1 1 0 0 1) 0
    simp only [arcEvaluate, hhalf, hone, Real.cos_pi, Real.sin_pi, Real.cos_two_pi,
      Real.sin_two_pi, Real.cos_zero, Real.sin_zero, point_add_apply, point_smul_apply,
      pt_apply_zero]
    norm_num

/-! ## Segments: rectification in closed form -/

/-- `segment (p1,p2).rectify (err)` is exactly `[p1, p2]`:
the seed `evaluate (0.0) = p1` followed by the appended endpoint `p2`. -/
theorem segment_rectifyF (p1 p2 : Point) (fuel : ℕ) (err : ℝ) :
    (Curve.segment p1 p2).rectifyF fuel err = some (Except.ok [p1, p2]) := by
  show some (Except.ok ([(1 - (0 : ℝ)) • p1 + (0 : ℝ) • p2] ++ [p2])) =
    some (Except.ok [p1, p2])
  norm_num

/-- C4 counterexample: for the segment from `(0,0)` to `(1,1)` and `err = 1`,
`invert(c).rectify(err)` has three points (the seed `invert(c).evaluate(0)`
followed by the reversed two points of `c.rectify(err)`), while
`reverse(c.rectify(err))` has two: the sequences are not equal. -/
theorem c4_counterexample :
    (Curve.inverted (Curve.segment (pt 0 0) (pt 1 1))).rectifyF 0 1 =
        some (Except.ok [pt 1 1, pt 1 1, pt 0 0]) ∧
      ((Curve.segment (pt 0 0) (pt 1 1)).rectifyF 0 1).map (Except.map List.reverse) =
        some (Except.ok [pt 1 1, pt 0 0]) ∧
      [pt 1 1, pt 1 1, pt 0 0] ≠ ([pt 1 1, pt 0 0] : List Point) := by
  refine ⟨?_, ?_, by simp⟩
  · have h1 : (Curve.segment (pt 0 0) (pt 1 1)).rectifyF 0 1 =
        some (Except.ok [pt 0 0, pt 1 1]) := segment_rectifyF (pt 0 0) (pt 1 1) 0 1
    show ((Curve.segment (pt 0 0) (pt 1 1)).rectifyCumulF 0
        [(Curve.segment (pt 0 0) (pt 1 1)).evaluate 0] 1).map
        (Except.map (fun b =>
          [(Curve.inverted (Curve.segment (pt 0 0) (pt 1 1))).evaluate 0] ++ b.reverse)) =
      some (Except.ok [pt 1 1, pt 1 1, pt 0 0])
    rw [show (Curve.segment (pt 0 0) (pt 1 1)).rectifyCumulF 0
        [(Curve.segment (pt 0 0) (pt 1 1)).evaluate 0] 1 =
        (Curve.segment (pt 0 0) (pt 1 1)).rectifyF 0 1 from rfl, h1]
    show some (Except.ok ([(1 - (1 - (0:ℝ))) • pt 0 0 + (1 - (0:ℝ)) • pt 1 1] ++
      [pt 1 1, pt 0 0])) = _
    norm_num
  · rw [segment_rectifyF (pt 0 0) (pt 1 1) 0 1]
    rfl

/-- C4 (amended): `invert(c).evaluate(t) = c.evaluate(1-t)`, and whenever
`c.rectify(err)` succeeds with points `b`, `invert(c).rectify(err)` is the
reversal of `b` with the seed point `invert(c).evaluate(0)` prepended (one
extra leading element relative to `reverse(c.rectify(err))`). -/
theorem c4_inverted_rectify (c : Curve) (t err : ℝ) (fuel : ℕ) (b : List Point)
    (hb : c.rectifyF fuel err = some (Except.ok b)) :
    (Curve.inverted c).evaluate t = c.evaluate (1 - t) ∧
      (Curve.inverted c).rectifyF fuel err =
        some (Except.ok ((Curve.inverted c).evaluate 0 :: b.reverse)) := by
  refine ⟨rfl, ?_⟩
  show (c.rectifyCumulF fuel [c.evaluate 0] err).map
      (Except.map (fun bb => [(Curve.inverted c).evaluate 0] ++ bb.reverse)) = _
  rw [show c.rectifyCumulF fuel [c.evaluate 0] err = c.rectifyF fuel err from rfl, hb]
  rfl

/-- C4 witness: the amended statement at the segment from `(0,0)` to `(1,1)`,
`t = 1/4`, `err = 1`. -/
theorem c4_witness :
    (Curve.inverted (Curve.segment (pt 0 0) (pt 1 1))).evaluate (1 / 4) =
        (Curve.segment (pt 0 0) (pt 1 1)).evaluate (1 - 1 / 4) ∧
      (Curve.inverted (Curve.segment (pt 0 0) (pt 1 1))).rectifyF 0 1 =
        some (Except.ok ((Curve.inverted (Curve.segment (pt 0 0) (pt 1 1))).evaluate 0 ::
          ([pt 0 0, pt 1 1] : List Point).reverse)) :=
  c4_inverted_rectify (Curve.segment (pt 0 0) (pt 1 1)) (1 / 4) 1 0 [pt 0 0, pt 1 1]
    (segment_rectifyF (pt 0 0) (pt 1 1) 0 1)

/-- C6 counterexample: a transformed curve whose own frame is linear can
still fail with the fatal error, because the fatal error propagates from
rectifying its sub-curve (here a nested transform with a non-linear frame);
so "fails iff the frame is not linear" does not hold as an equivalence. -/
theorem c6_counterexample :
    (Frame.mk true id (fun _ e => e)).linear = true ∧
      (Curve.transformed (Frame.mk true id (fun _ e => e))
          (Curve.transformed (Frame.mk false id (fun _ e => e))
            (Curve.segment (pt 0 0) (pt 0 0)))).rectifyCumulF 0 [] 1 =
        some (Except.error ()) := by
  exact ⟨rfl, rfl⟩

/-- C6 (amended): `transformed_curve_rep::rectify_cumul` fails with the
fatal error when its frame is not linear; when the frame is linear it
translates the tolerance through `direct_bound` at the sub-curve's start
point `c(0.0)`, rectifies the sub-curve once at that tolerance, and appends
the frame image of each resulting point in order, leaving the accumulator
otherwise unchanged — but a fatal error may still propagate out of the
sub-curve's own rectification, so success (an `ok` result) guarantees the
frame is linear while failure does not imply the frame is non-linear. -/
theorem c6_transformed_rectify (f : Frame) (c : Curve) (fuel : ℕ) (a : List Point) (err : ℝ) :
    (f.linear = false →
        (Curve.transformed f c).rectifyCumulF fuel a err = some (Except.error ())) ∧
      (f.linear = true →
        (Curve.transformed f c).rectifyCumulF fuel a err =
          (c.rectifyF fuel (f.direct_bound (c.evaluate 0) err)).map
            (Except.map (fun b => a ++ b.map f.app))) ∧
      (∀ b : List Point, f.linear = true →
        c.rectifyF fuel (f.direct_bound (c.evaluate 0) err) = some (Except.ok b) →
        (Curve.transformed f c).rectifyCumulF fuel a err =
          some (Except.ok (a ++ b.map f.app))) ∧
      (∀ b : List Point,
        (Curve.transformed f c).rectifyCumulF fuel a err = some (Except.ok b) →
        f.linear = true) := by
  have hunf : (Curve.transformed f c).rectifyCumulF fuel a err =
      if f.linear then
        (c.rectifyCumulF fuel [c.evaluate 0] (f.direct_bound (c.evaluate 0) err)).map
          (Except.map (fun b => a ++ b.map f.app))
      else some (Except.error ()) := rfl
  refine ⟨?_, ?_, ?_, ?_⟩
  · intro hf
    rw [hunf, hf]
    rfl
  · intro hf
    rw [hunf, hf]
    rfl
  · intro b hf hb
    rw [hunf, hf]
    simp only [if_true]
    rw [show c.rectifyCumulF fuel [c.evaluate 0] (f.direct_bound (c.evaluate 0) err) =
      c.rectifyF fuel (f.direct_bound (c.evaluate 0) err) from rfl, hb]
    rfl
  · intro b hb
    by_cases hf : f.linear
    · exact hf
    · rw [hunf, if_neg hf] at hb
      exact absurd (Option.some.inj hb) (by simp)

/-- C6 witness: the amended statement at a linear identity frame over a
segment, `fuel = 0`, empty accumulator, `err = 1`: the result is the `ok`
list of mapped points. -/
theorem c6_witness :
    (Curve.transformed (Frame.mk true id (fun _ e => e))
        (Curve.segment (pt 0 0) (pt 1 1))).rectifyCumulF 0 [] 1 =
      some (Except.ok (([] : List Point) ++
        ([pt 0 0, pt 1 1] : List Point).map (Frame.mk true id (fun _ e => e)).app)) :=
  (c6_transformed_rectify (Frame.mk true id (fun _ e => e))
      (Curve.segment (pt 0 0) (pt 1 1)) 0 [] 1).2.2.1 [pt 0 0, pt 1 1] rfl
    (segment_rectifyF (pt 0 0) (pt 1 1) 0 1)

/-- C7: confirmed.  `spline_rep::approx (i,u1,u2,err)` accepts the span iff
`l <= 2*sqrt(2*R*err)`, where `l` is the chord length
`|spline(i,u2) - spline(i,u1)|` snapped to exactly `0` whenever it is
nonzero but below `1e-6`, and `R = curvature(i,u1,u2)`. -/
theorem c7_approx_iff (s : SplineRep) (i : ℤ) (u1 u2 err : ℝ) :
    approx s i u1 u2 err = true ↔
      (if ‖splineEval s i u2 0 - splineEval s i u1 0‖ ≠ 0 ∧
            ‖splineEval s i u2 0 - splineEval s i u1 0‖ < 1e-6
        then (0 : ℝ)
        else ‖splineEval s i u2 0 - splineEval s i u1 0‖) ≤
        2 * Real.sqrt (2 * splineCurvature s i u1 u2 * err) := by
  unfold approx fnull
  rw [decide_eq_true_iff, norm_sub_rev]
  simp only [abs_norm]

/-- C10: confirmed.  `spline_rep::S` is total: for every `i` and every real
`u` exactly one guarded branch returns — the trailing branch with no return
statement is unreachable, because falling through the out-of-range test
leaves `U[i] <= u < U[i+3]`, and the final guard `u < U[i+3]` then holds.
`S` returns `0` when `i` is out of `0..n` or `u` is outside `[U[i],U[i+3])`,
and otherwise the value of the basis polynomial of the sub-range
`[U[i],U[i+1])`, `[U[i+1],U[i+2])` or `[U[i+2],U[i+3])` containing `u`
(the sub-range correspondence uses that the knots are ordered). -/
theorem c10_spline_S_total (n : ℕ) (U : ℤ → ℝ) (p1 p2 p3 : ℤ → ℝ → ℝ) (i : ℤ) (u : ℝ)
    (h01 : U i ≤ U (i + 1)) (h12 : U (i + 1) ≤ U (i + 2)) (h23 : U (i + 2) ≤ U (i + 3)) :
    (splineS n U p1 p2 p3 i u).isSome = true ∧
      ((i < 0 ∨ (n : ℤ) < i ∨ u < U i ∨ U (i + 3) ≤ u) →
        splineS n U p1 p2 p3 i u = some 0) ∧
      (0 ≤ i → i ≤ (n : ℤ) → U i ≤ u → u < U (i + 1) →
        splineS n U p1 p2 p3 i u = some (p1 i u)) ∧
      (0 ≤ i → i ≤ (n : ℤ) → U (i + 1) ≤ u → u < U (i + 2) →
        splineS n U p1 p2 p3 i u = some (p2 i u)) ∧
      (0 ≤ i → i ≤ (n : ℤ) → U (i + 2) ≤ u → u < U (i + 3) →
        splineS n U p1 p2 p3 i u = some (p3 i u)) := by
  refine ⟨?_, ?_, ?_, ?_, ?_⟩
  · unfold splineS
    split_ifs with h1 h2 h3 h4 h5 <;> try rfl
    push_neg at h2
    exact absurd h2.2 h5
  · intro h
    unfold splineS
    by_cases h1 : i < 0 ∨ (n : ℤ) < i
    · rw [if_pos h1]
    · rw [if_neg h1]
      have h2 : u < U i ∨ U (i + 3) ≤ u := by
        rcases h with h | h | h | h
        · exact absurd (Or.inl h) h1
        · exact absurd (Or.inr h) h1
        · exact Or.inl h
        · exact Or.inr h
      rw [if_pos h2]
  · intro hi0 hin hIu hu1
    have g1 : ¬(i < 0 ∨ (n : ℤ) < i) := by
      push_neg
      exact ⟨hi0, hin⟩
    have g2 : ¬(u < U i ∨ U (i + 3) ≤ u) := by
      push_neg
      exact ⟨hIu, lt_of_lt_of_le hu1 (le_trans h12 h23)⟩
    unfold splineS
    rw [if_neg g1, if_neg g2, if_pos hu1]
  · intro hi0 hin h1u hu2
    have g1 : ¬(i < 0 ∨ (n : ℤ) < i) := by
      push_neg
      exact ⟨hi0, hin⟩
    have g2 : ¬(u < U i ∨ U (i + 3) ≤ u) := by
      push_neg
      exact ⟨le_trans h01 h1u, lt_of_lt_of_le hu2 h23⟩
    unfold splineS
    rw [if_neg g1, if_neg g2, if_neg (not_lt.mpr h1u), if_pos hu2]
  · intro hi0 hin h2u hu3
    have g1 : ¬(i < 0 ∨ (n : ℤ) < i) := by
      push_neg
      exact ⟨hi0, hin⟩
    have g2 : ¬(u < U i ∨ U (i + 3) ≤ u) := by
      push_neg
      exact ⟨le_trans (le_trans h01 h12) h2u, hu3⟩
    unfold splineS
    rw [if_neg g1, if_neg g2, if_neg (not_lt.mpr (le_trans h12 h2u)),
      if_neg (not_lt.mpr h2u), if_pos hu3]

/-- C10 witness: the unit-spaced knot function, span `i = 0`, `u = 0`
(inside the first sub-range, so the first basis polynomial is selected). -/
theorem c10_witness :
    splineS 0 (fun j : ℤ => (j : ℝ)) (fun _ _ => 1) (fun _ _ => 2) (fun _ _ => 3) 0 0 =
      some 1 :=
  (c10_spline_S_total 0 (fun j : ℤ => (j : ℝ)) (fun _ _ => 1) (fun _ _ => 2) (fun _ _ => 3)
      0 0 (by norm_num) (by norm_num) (by norm_num)).2.2.1
    le_rfl le_rfl (by norm_num) (by norm_num)

/-! ## Spline evaluation: interval lookup and clamping (C9) -/

/-- The linear scan returns the first matching interval; when the knots seen
before `i` all fail the test, it returns `i` as soon as `U[i] <= u < U[i+1]`. -/
theorem scanFrom_found (s : SplineRep) (u : ℝ) (k : ℕ) :
    ∀ start i : ℕ, start ≤ i → i < start + k →
      (∀ j : ℕ, start ≤ j → j < i → ¬(s.U j ≤ u ∧ u < s.U (j + 1))) →
      s.U i ≤ u → u < s.U (i + 1) → scanFrom s u k start = i := by
  induction k with
  | zero =>
    intro start i h1 h2 _ _ _
    omega
  | succ k ih =>
    intro start i h1 h2 hnone hUi hUi1
    simp only [scanFrom]
    by_cases hp : s.U start ≤ u ∧ u < s.U (start + 1)
    · rw [if_pos hp]
      rcases eq_or_lt_of_le h1 with he | hlt
      · exact congrArg _ he
      · exact absurd hp (hnone start le_rfl hlt)
    · rw [if_neg hp]
      have hne : start ≠ i := by
        intro he
        subst he
        exact hp ⟨hUi, hUi1⟩
      exact ih (start + 1) i (by omega) (by omega)
        (fun j hj1 hj2 => hnone j (by omega) hj2) hUi hUi1

/-- The linear scan returns `-1` when no inspected interval contains `u`. -/
theorem scanFrom_none (s : SplineRep) (u : ℝ) (k : ℕ) :
    ∀ start : ℕ,
      (∀ j : ℕ, start ≤ j → j < start + k → ¬(s.U j ≤ u ∧ u < s.U (j + 1))) →
      scanFrom s u k start = -1 := by
  induction k with
  | zero =>
    intro start _
    rfl
  | succ k ih =>
    intro start hnone
    simp only [scanFrom]
    rw [if_neg (hnone start le_rfl (by omega))]
    exact ih (start + 1) (fun j hj1 hj2 => hnone j (by omega) (by omega))

/-- Weak monotonicity of the knot vector on the scanned index range. -/
theorem U_mono_le (s : SplineRep)
    (hU : ∀ j : ℕ, j < s.n + 5 → s.U j < s.U (j + 1)) :
    ∀ a b : ℕ, a ≤ b → b ≤ s.n + 5 → s.U a ≤ s.U b := by
  intro a b hab hb
  induction b, hab using Nat.le_induction with
  | base => exact le_refl _
  | succ b hab ih =>
    exact le_trans (ih (by omega)) (le_of_lt (hU b (by omega)))

/-- C9: confirmed.  `spline_rep::evaluate (t,o)` maps `t` into the knot range
via `convert`, finds the containing knot interval by linear scan
(`interval_no` returns the interval index `i` with `U[i] <= u < U[i+1]`, or
`-1` when `u` lies below all knots), clamps an interval index below `2`
(including the not-found `-1`) to span `2` evaluated at `U[2]`, clamps an
index above `n` to span `n` evaluated at `U[n+1]`, evaluates an in-range
index's own span at the converted parameter, and treats derivative orders
outside `0..2` as order `0`.  The knot hypothesis `hU` is the strict
increase of the scanned knots, which holds for constructed splines. -/
theorem c9_spline_evaluate (s : SplineRep)
    (hU : ∀ j : ℕ, j < s.n + 5 → s.U j < s.U (j + 1)) (hn : 2 ≤ s.n) :
    (∀ t : ℝ, splineConvert s t = s.U 2 + t * (s.U (s.n + 1) - s.U 2)) ∧
      (∀ (u : ℝ) (i : ℕ), i < s.n + 5 → s.U i ≤ u → u < s.U (i + 1) →
        interval_no s u = i) ∧
      (∀ u : ℝ, u < s.U 0 → interval_no s u = -1) ∧
      (∀ (t : ℝ) (o : ℤ), interval_no s (splineConvert s t) < 2 →
        splineEvalOrd s t o = splineEval s 2 (s.U 2) o) ∧
      (∀ (t : ℝ) (o : ℤ), (s.n : ℤ) < interval_no s (splineConvert s t) →
        splineEvalOrd s t o = splineEval s s.n (s.U (s.n + 1)) o) ∧
      (∀ (t : ℝ) (o : ℤ), 2 ≤ interval_no s (splineConvert s t) →
        interval_no s (splineConvert s t) ≤ (s.n : ℤ) →
        splineEvalOrd s t o =
          splineEval s (interval_no s (splineConvert s t)) (splineConvert s t) o) ∧
      (∀ (i : ℤ) (u : ℝ) (o : ℤ), o < 0 ∨ 2 < o →
        splineEval s i u o = splineEval s i u 0) := by
  have hdef : ∀ (t : ℝ) (o : ℤ), splineEvalOrd s t o =
      if interval_no s (splineConvert s t) < 2 then splineEval s 2 (s.U 2) o
      else if (s.n : ℤ) < interval_no s (splineConvert s t) then
        splineEval s s.n (s.U (s.n + 1)) o
      else splineEval s (interval_no s (splineConvert s t)) (splineConvert s t) o :=
    fun _ _ => rfl
  refine ⟨fun _ => rfl, ?_, ?_, ?_, ?_, ?_, ?_⟩
  · intro u i hi hUi hUi1
    apply scanFrom_found s u (s.n + 6) 0 i (by omega) (by omega) _ hUi hUi1
    intro j _ hj
    intro hpred
    have hle : s.U (j + 1) ≤ s.U i := U_mono_le s hU (j + 1) i (by omega) (by omega)
    exact absurd (lt_of_lt_of_le hpred.2 (le_trans hle hUi)) (lt_irrefl u)
  · intro u hu
    apply scanFrom_none s u (s.n + 6) 0
    intro j _ hj
    intro hpred
    have hle : s.U 0 ≤ s.U j := U_mono_le s hU 0 j (by omega) (by omega)
    exact absurd (lt_of_lt_of_le hu (le_trans hle hpred.1)) (lt_irrefl u)
  · intro t o h
    rw [hdef, if_pos h]
  · intro t o h
    rw [hdef, if_neg (by omega), if_pos h]
  · intro t o h2 h6
    rw [hdef, if_neg (by omega), if_neg (by omega)]
  · intro i u o ho
    unfold splineEval
    rw [if_pos ho, if_neg (by norm_num)]

/-- C9 witness: a concrete spline state with `n = 2` and unit-spaced knots;
the linear scan locates `u = 5/2` in knot interval `2`. -/
theorem c9_witness :
    interval_no (SplineRep.mk 2 (fun j : ℤ => (j : ℝ)) (fun _ => QuadP.mk 0 0 0))
      (5 / 2) = 2 :=
  (c9_spline_evaluate (SplineRep.mk 2 (fun j : ℤ => (j : ℝ)) (fun _ => QuadP.mk 0 0 0))
      (by
        intro j hj
        push_cast
        norm_num) le_rfl).2.1 (5 / 2) 2 (by norm_num) (by push_cast; norm_num)
    (by push_cast; norm_num)

/-! ## Termination of the adaptive rectification (C5) -/

/-- `square` is never negative. -/
theorem square_nonneg (x : ℝ) : 0 ≤ square x := mul_self_nonneg x

/-- The curvature radius bound of a spline span is never negative. -/
theorem splineCurvature_nonneg (s : SplineRep) (i : ℤ) (t1 t2 : ℝ) :
    0 ≤ splineCurvature s i t1 t2 := by
  unfold splineCurvature
  dsimp only
  split_ifs <;>
    first
      | exact div_nonneg (square_nonneg _) (norm_nonneg _)
      | norm_num [tm_infinity]

/-- A span whose chord is already shorter than `1e-6` is always accepted:
the chord is snapped to exactly `0`, and `0 <= 2*sqrt(2*R*err)` always. -/
theorem approx_of_chord_small (s : SplineRep) (i : ℤ) (u1 u2 err : ℝ)
    (h : ‖splineEval s i u1 0 - splineEval s i u2 0‖ < 1e-6) :
    approx s i u1 u2 err = true := by
  unfold approx fnull
  rw [decide_eq_true_iff]
  have hrhs : (0 : ℝ) ≤ 2 * Real.sqrt (2 * splineCurvature s i u1 u2 * err) :=
    mul_nonneg (by norm_num) (Real.sqrt_nonneg _)
  by_cases h0 : ‖splineEval s i u1 0 - splineEval s i u2 0‖ = 0
  · rw [if_neg (fun hc => hc.1 h0)]
    rw [h0]
    exact hrhs
  · rw [if_pos ⟨h0, by rw [abs_of_nonneg (norm_nonneg _)]; exact h⟩]
    exact hrhs

/-- `splineEval` at derivative order `0` is plain quadratic evaluation. -/
theorem splineEval_zero (s : SplineRep) (i : ℤ) (u : ℝ) :
    splineEval s i u 0 = (s.p i).evalD u 0 := rfl

/-- Chord bound for a quadratic with point coefficients: on `[-M, M]` the
evaluation is Lipschitz with constant `2*M*|c2| + |c1|`. -/
theorem quad_chord_bound (q : QuadP) (u v M : ℝ) (hu : |u| ≤ M) (hv : |v| ≤ M) :
    ‖q.evalD u 0 - q.evalD v 0‖ ≤ (2 * M * ‖q.c2‖ + ‖q.c1‖) * |u - v| := by
  have hrepr : q.evalD u 0 - q.evalD v 0 = (u - v) • ((u + v) • q.c2 + q.c1) := by
    show ((u * u) • q.c2 + u • q.c1 + q.c0) - ((v * v) • q.c2 + v • q.c1 + q.c0) =
      (u - v) • ((u + v) • q.c2 + q.c1)
    module
  rw [hrepr, norm_smul, Real.norm_eq_abs, mul_comm]
  apply mul_le_mul_of_nonneg_right _ (abs_nonneg _)
  calc ‖(u + v) • q.c2 + q.c1‖ ≤ ‖(u + v) • q.c2‖ + ‖q.c1‖ := norm_add_le _ _
    _ = |u + v| * ‖q.c2‖ + ‖q.c1‖ := by rw [norm_smul, Real.norm_eq_abs]
    _ ≤ 2 * M * ‖q.c2‖ + ‖q.c1‖ := by
        have h1 : |u + v| ≤ 2 * M := by
          calc |u + v| ≤ |u| + |v| := abs_add u v
            _ ≤ 2 * M := by linarith
        have h2 := mul_le_mul_of_nonneg_right h1 (norm_nonneg q.c2)
        linarith

/-- With enough fuel (as dictated by the Lipschitz constant of the span
polynomial and the span width) the adaptive bisection of a spline span
reaches its base cases: once the chord of a sub-span drops below `1e-6` it
is snapped to `0` and accepted. -/
theorem splineSpanF_some (s : SplineRep) (i : ℤ) (err M : ℝ) :
    ∀ (d : ℕ) (u1 u2 : ℝ), |u1| ≤ M → |u2| ≤ M →
      (2 * M * ‖(s.p i).c2‖ + ‖(s.p i).c1‖) * |u2 - u1| < 1e-6 * 2 ^ d →
      ∀ cum, ∃ cum2, splineSpanF s i (d + 1) u1 u2 err cum = some cum2 := by
  intro d
  induction d with
  | zero =>
    intro u1 u2 hu1 hu2 hL cum
    have hchord : ‖splineEval s i u1 0 - splineEval s i u2 0‖ < 1e-6 := by
      calc ‖splineEval s i u1 0 - splineEval s i u2 0‖
          ≤ (2 * M * ‖(s.p i).c2‖ + ‖(s.p i).c1‖) * |u1 - u2| :=
            quad_chord_bound (s.p i) u1 u2 M hu1 hu2
        _ = (2 * M * ‖(s.p i).c2‖ + ‖(s.p i).c1‖) * |u2 - u1| := by
            rw [abs_sub_comm]
        _ < 1e-6 * 2 ^ 0 := hL
        _ = 1e-6 := by norm_num
    refine ⟨cum ++ [splineEval s i u2 0], ?_⟩
    simp only [splineSpanF]
    rw [if_pos (approx_of_chord_small s i u1 u2 err hchord)]
  | succ d ih =>
    intro u1 u2 hu1 hu2 hL cum
    by_cases happ : approx s i u1 u2 err = true
    · refine ⟨cum ++ [splineEval s i u2 0], ?_⟩
      simp only [splineSpanF]
      rw [if_pos happ]
    · have hmid : |(u1 + u2) / 2| ≤ M := by
        rw [abs_div]
        have : |u1 + u2| ≤ 2 * M := by
          calc |u1 + u2| ≤ |u1| + |u2| := abs_add u1 u2
            _ ≤ 2 * M := by linarith
        rw [abs_of_pos (by norm_num : (0:ℝ) < 2)] at *
        linarith
      have hL1 : (2 * M * ‖(s.p i).c2‖ + ‖(s.p i).c1‖) * |(u1 + u2) / 2 - u1| <
          1e-6 * 2 ^ d := by
        have harg : (u1 + u2) / 2 - u1 = (u2 - u1) / 2 := by ring
        rw [harg, abs_div, abs_of_pos (by norm_num : (0:ℝ) < 2)]
        have hpow : (1e-6 : ℝ) * 2 ^ (d + 1) = (1e-6 * 2 ^ d) * 2 := by ring
        rw [hpow] at hL
        nlinarith [abs_nonneg (u2 - u1), norm_nonneg (s.p i).c2, norm_nonneg (s.p i).c1,
          mul_nonneg (mul_nonneg (by norm_num : (0:ℝ) ≤ 2) (abs_nonneg u1)) (norm_nonneg (s.p i).c2)]
      have hL2 : (2 * M * ‖(s.p i).c2‖ + ‖(s.p i).c1‖) * |u2 - (u1 + u2) / 2| <
          1e-6 * 2 ^ d := by
        have harg : u2 - (u1 + u2) / 2 = (u2 - u1) / 2 := by ring
        rw [harg, abs_div, abs_of_pos (by norm_num : (0:ℝ) < 2)]
        have hpow : (1e-6 : ℝ) * 2 ^ (d + 1) = (1e-6 * 2 ^ d) * 2 := by ring
        rw [hpow] at hL
        nlinarith [abs_nonneg (u2 - u1), norm_nonneg (s.p i).c2, norm_nonneg (s.p i).c1,
          mul_nonneg (mul_nonneg (by norm_num : (0:ℝ) ≤ 2) (abs_nonneg u1)) (norm_nonneg (s.p i).c2)]
      obtain ⟨cum2, h2⟩ := ih u1 ((u1 + u2) / 2) hu1 hmid hL1 cum
      obtain ⟨cum3, h3⟩ := ih ((u1 + u2) / 2) u2 hmid hu2 hL2 cum2
      refine ⟨cum3, ?_⟩
      show (if approx s i u1 u2 err then some (cum ++ [splineEval s i u2 0])
        else
          match splineSpanF s i (d + 1) u1 ((u1 + u2) / 2) err cum with
          | some cum2 => splineSpanF s i (d + 1) ((u1 + u2) / 2) u2 err cum2
          | none => none) = some cum3
      rw [if_neg (by simp [happ]), h2]
      exact h3

/-- For every span and every tolerance there is enough fuel for the adaptive
bisection to finish. -/
theorem splineSpanF_total (s : SplineRep) (i : ℤ) (err u1 u2 : ℝ) :
    ∃ fuel : ℕ, ∀ cum, ∃ cum2, splineSpanF s i fuel u1 u2 err cum = some cum2 := by
  obtain ⟨d, hd⟩ := pow_unbounded_of_one_lt
    ((2 * max |u1| |u2| * ‖(s.p i).c2‖ + ‖(s.p i).c1‖) * |u2 - u1| / 1e-6)
    (one_lt_two (α := ℝ))
  refine ⟨d + 1, fun cum => ?_⟩
  apply splineSpanF_some s i err (max |u1| |u2|) d u1 u2
    (le_max_left _ _) (le_max_right _ _)
  have h6 : (0 : ℝ) < 1e-6 := by norm_num
  calc (2 * max |u1| |u2| * ‖(s.p i).c2‖ + ‖(s.p i).c1‖) * |u2 - u1|
      = ((2 * max |u1| |u2| * ‖(s.p i).c2‖ + ‖(s.p i).c1‖) * |u2 - u1| / 1e-6) * 1e-6 := by
        field_simp
    _ < 2 ^ d * 1e-6 := mul_lt_mul_of_pos_right hd h6
    _ = 1e-6 * 2 ^ d := by ring

/-- The adaptive span bisection is monotone in the fuel. -/
theorem splineSpanF_mono (s : SplineRep) (i : ℤ) :
    ∀ f1 f2 : ℕ, f1 ≤ f2 → ∀ (u1 u2 err : ℝ) (cum r : List Point),
      splineSpanF s i f1 u1 u2 err cum = some r →
      splineSpanF s i f2 u1 u2 err cum = some r := by
  intro f1
  induction f1 with
  | zero =>
    intro f2 _ u1 u2 err cum r h
    exact absurd h (by simp [splineSpanF])
  | succ f1 ih =>
    intro f2 hle u1 u2 err cum r h
    obtain ⟨f2', rfl⟩ : ∃ f2', f2 = f2' + 1 := ⟨f2 - 1, by omega⟩
    simp only [splineSpanF] at h ⊢
    by_cases happ : approx s i u1 u2 err = true
    · rw [if_pos happ] at h ⊢
      exact h
    · rw [if_neg happ] at h ⊢
      cases h1 : splineSpanF s i f1 u1 ((u1 + u2) / 2) err cum with
      | none =>
        rw [h1] at h
        exact absurd h (by simp)
      | some cum2 =>
        rw [h1] at h
        rw [ih f2' (by omega) u1 ((u1 + u2) / 2) err cum cum2 h1]
        exact ih f2' (by omega) ((u1 + u2) / 2) u2 err cum2 r h

/-- The span bisection only appends to the accumulator. -/
theorem splineSpanF_extends (s : SplineRep) (i : ℤ) :
    ∀ (fuel : ℕ) (u1 u2 err : ℝ) (cum r : List Point),
      splineSpanF s i fuel u1 u2 err cum = some r → ∃ t, r = cum ++ t := by
  intro fuel
  induction fuel with
  | zero =>
    intro u1 u2 err cum r h
    exact absurd h (by simp [splineSpanF])
  | succ fuel ih =>
    intro u1 u2 err cum r h
    simp only [splineSpanF] at h
    by_cases happ : approx s i u1 u2 err = true
    · rw [if_pos happ] at h
      exact ⟨[splineEval s i u2 0], (Option.some.inj h).symm⟩
    · rw [if_neg happ] at h
      cases h1 : splineSpanF s i fuel u1 ((u1 + u2) / 2) err cum with
      | none =>
        rw [h1] at h
        exact absurd h (by simp)
      | some cum2 =>
        rw [h1] at h
        obtain ⟨t1, ht1⟩ := ih u1 ((u1 + u2) / 2) err cum cum2 h1
        obtain ⟨t2, ht2⟩ := ih ((u1 + u2) / 2) u2 err cum2 r h
        exact ⟨t1 ++ t2, by rw [ht2, ht1, List.append_assoc]⟩

/-- The span loop is monotone in the fuel. -/
theorem spanFoldF_mono (s : SplineRep) (err : ℝ) :
    ∀ (l : List ℕ) (f1 f2 : ℕ), f1 ≤ f2 → ∀ cum r : List Point,
      spanFoldF s f1 err l cum = some r → spanFoldF s f2 err l cum = some r := by
  intro l
  induction l with
  | nil =>
    intro f1 f2 _ cum r h
    exact h
  | cons i is ih =>
    intro f1 f2 hle cum r h
    simp only [spanFoldF] at h ⊢
    cases h1 : splineSpanF s (i : ℤ) f1 (s.U i) (s.U (i + 1)) err cum with
    | none =>
      rw [h1] at h
      exact absurd h (by simp)
    | some cum2 =>
      rw [h1] at h
      rw [splineSpanF_mono s (i : ℤ) f1 f2 hle _ _ _ _ _ h1]
      exact ih f1 f2 hle cum2 r h

/-- For every span list there is enough fuel for the whole span loop. -/
theorem spanFoldF_total (s : SplineRep) (err : ℝ) :
    ∀ l : List ℕ, ∃ fuel : ℕ, ∀ cum, ∃ cum2, spanFoldF s fuel err l cum = some cum2 := by
  intro l
  induction l with
  | nil => exact ⟨0, fun cum => ⟨cum, rfl⟩⟩
  | cons i is ih =>
    obtain ⟨f2, h2⟩ := ih
    obtain ⟨f1, h1⟩ := splineSpanF_total s (i : ℤ) err (s.U i) (s.U (i + 1))
    refine ⟨max f1 f2, fun cum => ?_⟩
    obtain ⟨cum2, hc2⟩ := h1 cum
    obtain ⟨cum3, hc3⟩ := h2 cum2
    refine ⟨cum3, ?_⟩
    simp only [spanFoldF]
    rw [splineSpanF_mono s (i : ℤ) f1 (max f1 f2) (le_max_left _ _) _ _ _ _ _ hc2]
    exact spanFoldF_mono s err is f2 (max f1 f2) (le_max_right _ _) cum2 cum3 hc3

/-- The span loop only appends to the accumulator. -/
theorem spanFoldF_extends (s : SplineRep) (err : ℝ) :
    ∀ (l : List ℕ) (fuel : ℕ) (cum r : List Point),
      spanFoldF s fuel err l cum = some r → ∃ t, r = cum ++ t := by
  intro l
  induction l with
  | nil =>
    intro fuel cum r h
    exact ⟨[], by rw [← Option.some.inj h, List.append_nil]⟩
  | cons i is ih =>
    intro fuel cum r h
    simp only [spanFoldF] at h
    cases h1 : splineSpanF s (i : ℤ) fuel (s.U i) (s.U (i + 1)) err cum with
    | none =>
      rw [h1] at h
      exact absurd h (by simp)
    | some cum2 =>
      rw [h1] at h
      obtain ⟨t1, ht1⟩ := splineSpanF_extends s (i : ℤ) fuel _ _ _ cum cum2 h1
      obtain ⟨t2, ht2⟩ := ih fuel cum2 r h
      exact ⟨t1 ++ t2, by rw [ht2, ht1, List.append_assoc]⟩

/-- `rectify_cumul` is monotone in the fuel for every curve variant. -/
theorem rectifyCumulF_mono (c : Curve) :
    ∀ f1 f2 : ℕ, f1 ≤ f2 → ∀ (a : List Point) (err : ℝ) (r : Except Unit (List Point)),
      c.rectifyCumulF f1 a err = some r → c.rectifyCumulF f2 a err = some r := by
  induction c with
  | segment p1 p2 =>
    intro f1 f2 _ a err r h
    exact h
  | polySegment ps =>
    intro f1 f2 _ a err r h
    exact h
  | spline s =>
    intro f1 f2 hle a err r h
    simp only [Curve.rectifyCumulF] at h ⊢
    rcases Option.map_eq_some'.mp h with ⟨b, hb, rfl⟩
    unfold splineRectCumulF at hb ⊢
    rw [spanFoldF_mono s err _ f1 f2 hle a b hb]
    rfl
  | arc center r1 r2 alpha e1 e2 =>
    intro f1 f2 _ a err r h
    exact h
  | compound c1 c2 ih1 ih2 =>
    intro f1 f2 hle a err r h
    simp only [Curve.rectifyCumulF] at h ⊢
    cases h1 : c1.rectifyCumulF f1 a err with
    | none =>
      rw [h1] at h
      exact absurd h (by simp)
    | some v =>
      rw [h1] at h
      rw [ih1 f1 f2 hle a err v h1]
      cases v with
      | ok a2 => exact ih2 f1 f2 hle a2 err r h
      | error e => exact h
  | inverted c ih =>
    intro f1 f2 hle a err r h
    simp only [Curve.rectifyCumulF] at h ⊢
    rcases Option.map_eq_some'.mp h with ⟨v, hv, rfl⟩
    rw [ih f1 f2 hle _ err v hv]
    rfl
  | transformed f c ih =>
    intro f1 f2 hle a err r h
    simp only [Curve.rectifyCumulF] at h ⊢
    by_cases hf : f.linear
    · rw [if_pos hf] at h ⊢
      rcases Option.map_eq_some'.mp h with ⟨v, hv, rfl⟩
      rw [ih f1 f2 hle _ _ v hv]
      rfl
    · rw [if_neg hf] at h ⊢
      exact h

/-- For every well-formed curve and positive tolerance there is enough fuel
for `rectify_cumul` to finish (uniformly in the accumulator), with an `ok`
result. -/
theorem rectifyCumulF_total (c : Curve) :
    c.WF → ∀ err : ℝ, 0 < err →
      ∃ fuel : ℕ, ∀ a : List Point, ∃ b : List Point,
        c.rectifyCumulF fuel a err = some (Except.ok b) := by
  induction c with
  | segment p1 p2 =>
    intro _ err _
    exact ⟨0, fun a => ⟨a ++ [p2], rfl⟩⟩
  | polySegment ps =>
    intro _ err _
    exact ⟨0, fun a => ⟨a ++ ps.drop 1, rfl⟩⟩
  | spline s =>
    intro _ err _
    obtain ⟨fuel, h⟩ := spanFoldF_total s err (List.range' 2 (s.n - 1))
    refine ⟨fuel, fun a => ?_⟩
    obtain ⟨b, hb⟩ := h a
    refine ⟨b, ?_⟩
    simp only [Curve.rectifyCumulF]
    unfold splineRectCumulF
    rw [hb]
    rfl
  | arc center r1 r2 alpha e1 e2 =>
    intro _ err _
    exact ⟨0, fun a => ⟨a ++ arcRectifyPoints center r1 r2 alpha e1 e2 err, rfl⟩⟩
  | compound c1 c2 ih1 ih2 =>
    intro hwf err herr
    simp only [Curve.WF] at hwf
    obtain ⟨fu1, h1⟩ := ih1 hwf.1 err herr
    obtain ⟨fu2, h2⟩ := ih2 hwf.2 err herr
    refine ⟨max fu1 fu2, fun a => ?_⟩
    obtain ⟨b1, hb1⟩ := h1 a
    obtain ⟨b2, hb2⟩ := h2 b1
    refine ⟨b2, ?_⟩
    simp only [Curve.rectifyCumulF]
    rw [rectifyCumulF_mono c1 fu1 (max fu1 fu2) (le_max_left _ _) a err _ hb1]
    exact rectifyCumulF_mono c2 fu2 (max fu1 fu2) (le_max_right _ _) b1 err _ hb2
  | inverted c ih =>
    intro hwf err herr
    simp only [Curve.WF] at hwf
    obtain ⟨fuel, h⟩ := ih hwf err herr
    refine ⟨fuel, fun a => ?_⟩
    obtain ⟨b, hb⟩ := h [c.evaluate 0]
    refine ⟨a ++ b.reverse, ?_⟩
    simp only [Curve.rectifyCumulF]
    rw [hb]
    rfl
  | transformed f c ih =>
    intro hwf err herr
    simp only [Curve.WF] at hwf
    obtain ⟨hf, hdb, hwfc⟩ := hwf
    obtain ⟨fuel, h⟩ := ih hwfc (f.direct_bound (c.evaluate 0) err) (hdb _ _ herr)
    refine ⟨fuel, fun a => ?_⟩
    obtain ⟨b, hb⟩ := h [c.evaluate 0]
    refine ⟨a ++ b.map f.app, ?_⟩
    simp only [Curve.rectifyCumulF]
    rw [if_pos hf, hb]
    rfl

/-- A successful `rectify_cumul` only appends to the accumulator. -/
theorem rectifyCumulF_extends (c : Curve) :
    ∀ (fuel : ℕ) (a : List Point) (err : ℝ) (b : List Point),
      c.rectifyCumulF fuel a err = some (Except.ok b) → ∃ t, b = a ++ t := by
  induction c with
  | segment p1 p2 =>
    intro fuel a err b h
    have h' : some (Except.ok (a ++ [p2])) = some (Except.ok b) := h
    have h2 : a ++ [p2] = b := by simpa using h'
    exact ⟨[p2], h2.symm⟩
  | polySegment ps =>
    intro fuel a err b h
    have h' : some (Except.ok (a ++ ps.drop 1)) = some (Except.ok b) := h
    have h2 : a ++ ps.drop 1 = b := by simpa using h'
    exact ⟨ps.drop 1, h2.symm⟩
  | spline s =>
    intro fuel a err b h
    simp only [Curve.rectifyCumulF] at h
    rcases Option.map_eq_some'.mp h with ⟨v, hv, hok⟩
    have hvb : v = b := by simpa using hok
    subst hvb
    exact spanFoldF_extends s err _ fuel a v hv
  | arc center r1 r2 alpha e1 e2 =>
    intro fuel a err b h
    have h' : some (Except.ok (a ++ arcRectifyPoints center r1 r2 alpha e1 e2 err)) =
      some (Except.ok b) := h
    have h2 : a ++ arcRectifyPoints center r1 r2 alpha e1 e2 err = b := by simpa using h'
    exact ⟨arcRectifyPoints center r1 r2 alpha e1 e2 err, h2.symm⟩
  | compound c1 c2 ih1 ih2 =>
    intro fuel a err b h
    simp only [Curve.rectifyCumulF] at h
    cases h1 : c1.rectifyCumulF fuel a err with
    | none =>
      rw [h1] at h
      exact absurd h (by simp)
    | some v =>
      rw [h1] at h
      cases v with
      | ok a2 =>
        obtain ⟨t1, ht1⟩ := ih1 fuel a err a2 h1
        obtain ⟨t2, ht2⟩ := ih2 fuel a2 err b h
        exact ⟨t1 ++ t2, by rw [ht2, ht1, List.append_assoc]⟩
      | error e =>
        have h' : some (Except.error (ε := Unit) (α := List Point) e) =
          some (Except.ok b) := h
        simp at h'
  | inverted c ih =>
    intro fuel a err b h
    simp only [Curve.rectifyCumulF] at h
    rcases Option.map_eq_some'.mp h with ⟨v, hv, hok⟩
    cases v with
    | ok bb =>
      have hvb : a ++ bb.reverse = b := by simpa [Except.map] using hok
      exact ⟨bb.reverse, hvb.symm⟩
    | error e => simp [Except.map] at hok
  | transformed f c ih =>
    intro fuel a err b h
    simp only [Curve.rectifyCumulF] at h
    by_cases hf : f.linear
    · rw [if_pos hf] at h
      rcases Option.map_eq_some'.mp h with ⟨v, hv, hok⟩
      cases v with
      | ok bb =>
        have hvb : a ++ bb.map f.app = b := by simpa [Except.map] using hok
        exact ⟨bb.map f.app, hvb.symm⟩
      | error e => simp [Except.map] at hok
    · rw [if_neg hf] at h
      exact absurd h (by simp)

/-- C5: confirmed (with the well-formedness hypotheses the spec's interface
contracts impose: arcs have a positive larger radius, frames of transformed
curves are linear — the non-linear case is the deliberate fatal error of C6 —
and translate positive tolerances to positive tolerances).  For every such
curve and every `err > 0` there is enough fuel for `rectify (err)` to
terminate with a finite, non-empty list of points; in particular the spline
span bisection always reaches a base case, because a chord shorter than
`1e-6` is snapped to exactly `0` and a zero chord is always accepted
(`0 <= 2*sqrt(2*R*err)` holds whatever `R` the curvature routine returns). -/
theorem c5_rectify_terminates (c : Curve) (err : ℝ) (hwf : c.WF) (herr : 0 < err) :
    (∃ (fuel : ℕ) (b : List Point),
        c.rectifyF fuel err = some (Except.ok b) ∧ b ≠ []) ∧
      (∀ (s : SplineRep) (i : ℤ) (u1 u2 e : ℝ),
        ‖splineEval s i u1 0 - splineEval s i u2 0‖ < 1e-6 →
        approx s i u1 u2 e = true) := by
  constructor
  · obtain ⟨fuel, h⟩ := rectifyCumulF_total c hwf err herr
    obtain ⟨b, hb⟩ := h [c.evaluate 0]
    obtain ⟨t, ht⟩ := rectifyCumulF_extends c fuel [c.evaluate 0] err b hb
    refine ⟨fuel, b, hb, ?_⟩
    rw [ht]
    simp
  · intro s i u1 u2 e hc
    exact approx_of_chord_small s i u1 u2 e hc

/-- C5 witness: a compound of a segment and a quarter arc, `err = 1`. -/
theorem c5_witness :
    (∃ (fuel : ℕ) (b : List Point),
        (Curve.compound (Curve.segment (pt 0 0) (pt 1 0))
          (Curve.arc (pt 1 0) 1 1 0 0 (1 / 4))).rectifyF fuel 1 =
          some (Except.ok b) ∧ b ≠ []) ∧
      (∀ (s : SplineRep) (i : ℤ) (u1 u2 e : ℝ),
        ‖splineEval s i u1 0 - splineEval s i u2 0‖ < 1e-6 →
        approx s i u1 u2 e = true) :=
  c5_rectify_terminates
    (Curve.compound (Curve.segment (pt 0 0) (pt 1 0)) (Curve.arc (pt 1 0) 1 1 0 0 (1 / 4)))
    1 (by constructor <;> norm_num [Curve.WF]) (by norm_num)
